import Mathlib

/-!
Verification of the IEEE-CS CFP processor reconciliation core
(src/parser.py) against its natural-language specification.

The shallow embedding below translates the data model and the operations
of the source file into executable Lean definitions:

* Python dicts keyed by composite keys become association lists
  (`List (Key × Record)`) with insert-or-overwrite semantics (`dinsert`);
* the CSV store file becomes a value of type `Option (List Row)`:
  `none` when the file does not exist, otherwise the list of rows
  (the first row being the header row that the loader skips);
* `datetime` deadlines become a `Date` structure; `strftime`/`strptime`
  with the fixed format string of `METADATA` ("%Y-%m-%d") become
  `formatDate` / `parseDate`;
* the broad `except BaseException` wrappers that make a whole function
  return `None` on any internal failure become `Option` results.
-/

/-- Calendar date (no time component), standing for the Python
`datetime` values produced by `strptime` at midnight. -/
structure Date where
  year : Nat
  month : Nat
  day : Nat
deriving DecidableEq, Repr

/-- Numeric encoding of a date that is order-isomorphic to chronological
order for valid dates (month and day both below 100), mirroring how
Python compares `datetime` values chronologically. -/
def dateEnc (d : Date) : Nat :=
  d.year * 10000 + d.month * 100 + d.day

/-- Chronological order on dates, as Python compares `datetime` values. -/
def dateLE (a b : Date) : Prop :=
  a.year < b.year ∨
    (a.year = b.year ∧ (a.month < b.month ∨ (a.month = b.month ∧ a.day ≤ b.day)))

/-- Leap-year rule used by the Gregorian calendar (and Python `datetime`). -/
def isLeapYear (y : Nat) : Bool :=
  (y % 4 == 0 && y % 100 != 0) || y % 400 == 0

/-- Number of days of a month, as validated by the Python `datetime`
constructor that `strptime` calls. -/
def daysInMonth (y m : Nat) : Nat :=
  if m = 2 then (if isLeapYear y then 29 else 28)
  else if m = 4 ∨ m = 6 ∨ m = 9 ∨ m = 11 then 30
  else 31

/-- Range constraints enforced by the Python `datetime` constructor
(`MINYEAR = 1`, `MAXYEAR = 9999`, month and day checked against the
calendar). -/
def validDate (d : Date) : Prop :=
  1 ≤ d.year ∧ d.year ≤ 9999 ∧ 1 ≤ d.month ∧ d.month ≤ 12 ∧
    1 ≤ d.day ∧ d.day ≤ daysInMonth d.year d.month

instance (d : Date) : Decidable (validDate d) :=
  inferInstanceAs (Decidable (_ ∧ _))

/-- Little-endian base-10 digits with explicit fuel so that the kernel
can evaluate the definition; `digitsRevFuel n n` agrees with
`Nat.digits 10 n`. -/
def digitsRevFuel : Nat → Nat → List Nat
  | _, 0 => []
  | 0, _ + 1 => []
  | fuel + 1, n + 1 => (n + 1) % 10 :: digitsRevFuel fuel ((n + 1) / 10)

/-- Big-endian decimal digit characters of a number (empty for 0). -/
def digitsBE (n : Nat) : List Char :=
  ((digitsRevFuel n n).reverse).map Nat.digitChar

/-- Left-pad a character list with zeros up to width `w`, as the
zero-padded conversions of the `%Y-%m-%d` format do. -/
def padLeft (w : Nat) (cs : List Char) : List Char :=
  List.replicate (w - cs.length) '0' ++ cs

/-- Rendering of a date through the fixed `MEDIA_DEADLINE_FORMAT`
`"%Y-%m-%d"` of `METADATA`, as `strftime` does on save
(src/parser.py line 248). -/
def formatDate (d : Date) : String :=
  ⟨padLeft 4 (digitsBE d.year) ++ '-' :: (padLeft 2 (digitsBE d.month) ++ '-' :: padLeft 2 (digitsBE d.day))⟩

/-- Numeric value of a decimal digit character. -/
def charVal (c : Char) : Nat := c.toNat - 48

/-- Read exactly `k` decimal digits, accumulating their value; mirrors
the `\d\d\d\d` group that Python `_strptime` compiles for `%Y`. -/
def readExactDigits : Nat → Nat → List Char → Option (Nat × List Char)
  | acc, 0, cs => some (acc, cs)
  | _, _ + 1, [] => none
  | acc, k + 1, c :: cs =>
    if c.isDigit then readExactDigits (acc * 10 + charVal c) k cs else none

/-- Read one or two decimal digits greedily; mirrors the `\d\d?` groups
that Python `_strptime` compiles for `%m` and `%d`. -/
def readOneOrTwoDigits : List Char → Option (Nat × List Char)
  | [] => none
  | c :: cs =>
    if c.isDigit then
      match cs with
      | c2 :: cs2 =>
        if c2.isDigit then some (charVal c * 10 + charVal c2, cs2)
        else some (charVal c, cs)
      | [] => some (charVal c, [])
    else none

/-- Parsing of a date through the fixed format `"%Y-%m-%d"`, as
`datetime.strptime` does on load (src/parser.py lines 46-47): a
four-digit year, a dash, a one-or-two-digit month, a dash, a
one-or-two-digit day, end of input, with the ranges checked by the
`datetime` constructor. `none` stands for the `ValueError` that
`strptime` raises. -/
def parseDate (s : String) : Option Date :=
  match readExactDigits 0 4 s.toList with
  | none => none
  | some (y, rest1) =>
    match rest1 with
    | [] => none
    | s1 :: rest2 =>
      if s1 = '-' then
        match readOneOrTwoDigits rest2 with
        | none => none
        | some (m, rest3) =>
          match rest3 with
          | [] => none
          | s2 :: rest4 =>
            if s2 = '-' then
              match readOneOrTwoDigits rest4 with
              | none => none
              | some (d, rest5) =>
                if rest5 = [] ∧ 1 ≤ y ∧ 1 ≤ m ∧ m ≤ 12 ∧ 1 ≤ d ∧ d ≤ daysInMonth y m then
                  some ⟨y, m, d⟩
                else none
            else none
      else none

/-- Lower-casing of one ASCII character, as `str.lower` does on the
values fed to `MediaType.from_value`. -/
def lowerChar (c : Char) : Char :=
  if 65 ≤ c.toNat ∧ c.toNat ≤ 90 then Char.ofNat (c.toNat + 32) else c

/-- Lower-casing of a string (`value.lower()` in `MediaType.from_value`,
src/parser.py line 30). -/
def lowerString (s : String) : String :=
  ⟨s.toList.map lowerChar⟩

/-- The `MediaType` enumeration of src/parser.py lines 21-25. -/
inductive MediaType where
  | MAGAZINE
  | JOURNAL
  | CONFERENCE
  | UNKNOWN
deriving DecidableEq, Repr

/-- String value carried by each `MediaType` member (it is a `StrEnum`,
so the member IS this string wherever Python uses it as text). -/
def mediaTypeStr : MediaType → String
  | MediaType.MAGAZINE => "Magazine"
  | MediaType.JOURNAL => "Journal"
  | MediaType.CONFERENCE => "Conference"
  | MediaType.UNKNOWN => "Unknown"

/-- The classmethod `MediaType.from_value` (src/parser.py lines 27-39):
falsy input and unrecognized values fold to `UNKNOWN`, recognized values
are matched case-insensitively. -/
def MediaType.from_value (value : String) : MediaType :=
  if value = "" then MediaType.UNKNOWN
  else
    match lowerString value with
    | "magazine" => MediaType.MAGAZINE
    | "journal" => MediaType.JOURNAL
    | "conference" => MediaType.CONFERENCE
    | _ => MediaType.UNKNOWN

/-- The `DbRecordStatus` enumeration of src/parser.py lines 14-18. -/
inductive DbRecordStatus where
  | NEW
  | UNMODIFIED
  | UPDATED
  | DELETED
deriving DecidableEq, Repr

/-- Value held by the Deadline entry of a record dict: a parsed
`datetime` in every record produced by extraction or load, and the
formatted string that `update_db_info` writes back into the same dict
in place (src/parser.py line 248). -/
inductive DL where
  | date (d : Date)
  | text (s : String)
deriving DecidableEq, Repr

/-- In-memory record: the dict built by `create_media_data_dict`
(src/parser.py lines 110-123) or by the load loop of
`match_ieee_cs_cfp_information_with_db`, with the fields of
`METADATA["DB_HEADER"]` in order.  A present-but-empty raw field is
normalized to absent by the loader, so absent fields are `none`. -/
structure Record where
  type : MediaType
  name : Option String
  title : Option String
  summary : Option String
  deadline : Option DL
  titleLink : Option String
  actionsLink : Option String
deriving DecidableEq, Repr

/-- One row of the persisted CSV store: seven raw text fields in the
order of `METADATA["DB_HEADER"]`. -/
structure Row where
  type : String
  name : String
  title : String
  summary : String
  deadline : String
  titleLink : String
  actionsLink : String
deriving DecidableEq, Repr

/-- The header row that `writer.writeheader()` emits: the field names of
`METADATA["DB_HEADER"]` (src/parser.py lines 80-81). -/
def headerRow : Row :=
  { type := "Type", name := "Name", title := "Title", summary := "Summary",
    deadline := "Deadline", titleLink := "TitleLink", actionsLink := "ActionsLink" }

/-- Order in which status groups are persisted:
`METADATA["DB_RECORDS_ORDER"]` (src/parser.py line 86). -/
def DB_RECORDS_ORDER : List DbRecordStatus :=
  [DbRecordStatus.NEW, DbRecordStatus.UPDATED, DbRecordStatus.UNMODIFIED]

/-- Composite keys: Python computes `type + name + title` or `None`, and
even `None` is a usable dict key, so keys are `Option String`. -/
abbrev Key := Option String

/-- The function `create_composite_key` (src/parser.py lines 126-130):
if any of the three identity fields is `None` it prints a diagnostic and
returns `None`; otherwise it returns the concatenation of the three in
order, with no separator. -/
def create_composite_key (ty nm ti : Option String) : Key :=
  match ty, nm, ti with
  | some t, some n, some s => some (t ++ n ++ s)
  | _, _, _ => none

/-- Key under which `parse_ieee_cs_cfp_information` stores a fresh
observation (src/parser.py lines 165-166): the media type enum (whose
string value is `mediaTypeStr`, never `None`), the name and the title. -/
def freshKey (r : Record) : Key :=
  create_composite_key (some (mediaTypeStr r.type)) r.name r.title

/-- Normalization applied to every raw CSV field on load
(src/parser.py line 197): an empty string becomes absent. -/
def normEmpty (s : String) : Option String :=
  if s = "" then none else some s

/-- Key computed for a loaded row (src/parser.py lines 199-201), built
from the normalized raw Type, Name and Title fields, before
`process_db_row_data` retypes the row. -/
def rowKey (row : Row) : Key :=
  create_composite_key (normEmpty row.type) (normEmpty row.name) (normEmpty row.title)

/-- The `MEDIA_TYPE` deserialize processor (src/parser.py line 43):
falsy input maps to `UNKNOWN`, otherwise `MediaType.from_value`. -/
def mediaTypeProc (x : Option String) : MediaType :=
  match x with
  | none => MediaType.UNKNOWN
  | some v => MediaType.from_value v

/-- The `MEDIA_DEADLINE` deserialize processor (src/parser.py lines
46-47) together with the exception behaviour of its caller: absent input
stays absent (inner `some none`), present input is parsed with
`strptime`; a parse failure raises, which the caller surfaces as a whole
run failure (outer `none`). -/
def parseDeadlineField : Option String → Option (Option DL)
  | none => some none
  | some s => (parseDate s).map (fun d => some (DL.date d))

/-- Loading of one CSV row inside
`match_ieee_cs_cfp_information_with_db` (src/parser.py lines 195-202):
empty fields are normalized to absent, the composite key is computed
from the raw (string) Type, Name and Title, and `process_db_row_data`
then renormalizes Type through the enumeration and parses Deadline.
Returns `none` when the deadline text does not parse (the `strptime`
exception aborts the whole matcher). -/
def loadRow (row : Row) : Option (Key × Record) :=
  match parseDeadlineField (normEmpty row.deadline) with
  | none => none
  | some dl =>
    some (rowKey row,
      { type := mediaTypeProc (normEmpty row.type),
        name := normEmpty row.name,
        title := normEmpty row.title,
        summary := normEmpty row.summary,
        deadline := dl,
        titleLink := normEmpty row.titleLink,
        actionsLink := normEmpty row.actionsLink })

/-- Keys of an association list. -/
def akeys (l : List (Key × Record)) : List Key :=
  l.map Prod.fst

/-- Lookup in an association list (the reading side of a Python dict). -/
def alookup : List (Key × Record) → Key → Option Record
  | [], _ => none
  | (k2, r) :: rest, k => if k = k2 then some r else alookup rest k

/-- Insert-or-overwrite (the `db_data[composite_key] = ...` assignment,
src/parser.py line 202): Python dicts keep insertion order and overwrite
in place on a repeated key. -/
def dinsert : List (Key × Record) → Key → Record → List (Key × Record)
  | [], k, r => [(k, r)]
  | (k2, r2) :: rest, k, r =>
    if k = k2 then (k2, r) :: rest else (k2, r2) :: dinsert rest k r

/-- Accumulating form of the load loop: the `db_data` dict built so far,
then the remaining rows. -/
def buildDbDataAux : List (Key × Record) → List Row → Option (List (Key × Record))
  | m, [] => some m
  | m, row :: rest =>
    match loadRow row with
    | some kr => buildDbDataAux (dinsert m kr.1 kr.2) rest
    | none => none

/-- The load loop of `match_ieee_cs_cfp_information_with_db`
(src/parser.py lines 190-202), over the data rows (header already
skipped): builds the `db_data` dict, aborting the whole matcher if any
row fails to deserialize. -/
def buildDbData (rows : List Row) : Option (List (Key × Record)) :=
  buildDbDataAux [] rows

/-- The classification result: the Python result dict of
`match_ieee_cs_cfp_information_with_db`, initialized with all four
statuses mapped to `None` (src/parser.py lines 176-181); the
missing-file path fills only NEW, the ordinary path fills all four. -/
structure Classification where
  new : Option (List Record)
  unmodified : Option (List Record)
  updated : Option (List Record)
  deleted : Option (List Record)
deriving DecidableEq, Repr

/-- Bucket accessor, matching `records[status]` indexing. -/
def getBucket (c : Classification) : DbRecordStatus → Option (List Record)
  | DbRecordStatus.NEW => c.new
  | DbRecordStatus.UNMODIFIED => c.unmodified
  | DbRecordStatus.UPDATED => c.updated
  | DbRecordStatus.DELETED => c.deleted

/-- Python truthiness of a bucket: `None` and the empty list are falsy. -/
def truthy : Option (List Record) → Bool
  | none => false
  | some [] => false
  | some (_ :: _) => true

/-- Set algebra of src/parser.py lines 203-215, with Python set
iteration (whose order is unspecified) realized as iteration in the
order of the `web` list (for NEW, UPDATED, UNMODIFIED) and of the `db`
list (for DELETED). The UNMODIFIED bucket takes its contents from
`db_data`, as `[db_data[key] for key in intersected_keys - updated_keys]`
does; on that filter condition it equals the fresh record. -/
def classifyRecords (web db : List (Key × Record)) : Classification :=
  { new := some ((web.filter (fun p => decide (p.1 ∉ akeys db))).map Prod.snd),
    unmodified := some ((web.filter
        (fun p => decide (p.1 ∈ akeys db) && decide (alookup db p.1 = some p.2))).map
      (fun p => (alookup db p.1).getD p.2)),
    updated := some ((web.filter
        (fun p => decide (p.1 ∈ akeys db) && !decide (alookup db p.1 = some p.2))).map Prod.snd),
    deleted := some ((db.filter (fun q => decide (q.1 ∉ akeys web))).map Prod.snd) }

/-- The function `match_ieee_cs_cfp_information_with_db` (src/parser.py
lines 173-218).  Its file argument models the store: `none` when
`path.exists` is false (every fresh record becomes NEW and the other
buckets stay `None`); otherwise the row list, whose first row the reader
skips with `next(reader)` (an empty existing file makes `next` raise, so
the matcher returns `none`); a row deserialization failure also returns
`none` through the broad `except`. -/
def match_ieee_cs_cfp_information_with_db (web : List (Key × Record))
    (file : Option (List Row)) : Option Classification :=
  match file with
  | none =>
    some { new := some (web.map Prod.snd), unmodified := none,
           updated := none, deleted := none }
  | some [] => none
  | some (_ :: rows) => (buildDbData rows).map (classifyRecords web)

/-- The function `only_unmodified_records` (src/parser.py lines
221-223), with Python truthiness made explicit. -/
def only_unmodified_records (records : Classification) : Bool :=
  truthy records.unmodified && !truthy records.updated &&
    !truthy records.deleted && !truthy records.new

/-- Sort key used by `update_db_info` (src/parser.py lines 244-245):
the tuple `(record[Deadline] is None, record[Deadline])`, so records
with a deadline come first in chronological order and records without
one come last.  A text deadline cannot occur before the write (Python
would raise comparing `str` to `datetime`). -/
def deadlineSortKey (r : Record) : Bool × Nat :=
  match r.deadline with
  | none => (true, 0)
  | some (DL.date d) => (false, dateEnc d)
  | some (DL.text _) => (false, 0)

/-- Lexicographic comparison of sort-key tuples, as Python compares the
tuples produced by the sort key. -/
def keyLE (a b : Bool × Nat) : Prop :=
  (a.1 = b.1 ∧ a.2 ≤ b.2) ∨ (a.1 = false ∧ b.1 = true)

instance (a b : Bool × Nat) : Decidable (keyLE a b) :=
  inferInstanceAs (Decidable (_ ∨ _))

/-- Record ordering used by the writer sort. -/
def recLE (r s : Record) : Prop :=
  keyLE (deadlineSortKey r) (deadlineSortKey s)

instance : DecidableRel recLE :=
  fun r s => inferInstanceAs (Decidable (keyLE (deadlineSortKey r) (deadlineSortKey s)))

instance : IsTotal Record recLE := by
  constructor
  intro a b
  unfold recLE keyLE
  rcases deadlineSortKey a with ⟨x1, n1⟩
  rcases deadlineSortKey b with ⟨x2, n2⟩
  cases x1 <;> cases x2 <;> simp <;> omega

instance : IsTrans Record recLE := by
  constructor
  intro a b c
  unfold recLE keyLE
  rcases deadlineSortKey a with ⟨x1, n1⟩
  rcases deadlineSortKey b with ⟨x2, n2⟩
  rcases deadlineSortKey c with ⟨x3, n3⟩
  cases x1 <;> cases x2 <;> cases x3 <;> simp <;> omega

/-- Python `sorted` is a stable sort ascending by the key; a stable sort
by a total preorder is pointwise determined, so the stable
`List.insertionSort` computes exactly the list `sorted` returns. -/
def sortRecords (l : List Record) : List Record :=
  l.insertionSort recLE

/-- The rows contributed by one status group of `update_db_info`
(src/parser.py lines 242-245): nothing when the bucket is falsy,
otherwise the sorted bucket. -/
def statusRows (c : Classification) (st : DbRecordStatus) : List Record :=
  if truthy (getBucket c st) then sortRecords ((getBucket c st).getD []) else []

/-- All records written by `update_db_info`, iterating the statuses in
`METADATA["DB_RECORDS_ORDER"]` order: NEW, then UPDATED, then
UNMODIFIED. -/
def rowsFor (c : Classification) : List Record :=
  statusRows c DbRecordStatus.NEW ++ statusRows c DbRecordStatus.UPDATED ++
    statusRows c DbRecordStatus.UNMODIFIED

/-- Text written into the Deadline column for each deadline value: the
`strftime` text for a date (src/parser.py lines 247-249), the empty
field for an absent deadline, the string itself if the dict already
holds the formatted text. -/
def renderDeadline : Option DL → String
  | none => ""
  | some (DL.date d) => formatDate d
  | some (DL.text s) => s

/-- Serialization of one record into a CSV row: `writer.writerow` with
the `str` conversions the csv module applies (the `StrEnum` type renders
as its value, `None` renders as the empty field, a date deadline has
been replaced in the dict by its `strftime` text just before the
write). -/
def serializeRecord (r : Record) : Row :=
  { type := mediaTypeStr r.type,
    name := r.name.getD "",
    title := r.title.getD "",
    summary := r.summary.getD "",
    deadline := renderDeadline r.deadline,
    titleLink := r.titleLink.getD "",
    actionsLink := r.actionsLink.getD "" }

/-- In-place mutation performed on each written record (src/parser.py
lines 247-249): a present date deadline is replaced by its formatted
text; an absent deadline is left alone (the `if cfp_record[Deadline]`
guard is falsy). -/
def mutateRecord (r : Record) : Record :=
  match r.deadline with
  | some (DL.date d) => { r with deadline := some (DL.text (formatDate d)) }
  | _ => r

/-- Bucket-level effect of the write loop on the shared record dicts. -/
def mutateBucket : Option (List Record) → Option (List Record) :=
  Option.map (List.map mutateRecord)

/-- The function `update_db_info` (src/parser.py lines 226-255).  The
result is the pair of the new store file and the classification as the
caller observes it afterwards: Python mutates the record dicts in place
while writing, so the caller keeps the same lists but their NEW, UPDATED
and UNMODIFIED members now carry formatted deadline strings.  On the
skip path nothing is written and nothing is mutated. -/
def update_db_info (records : Classification) (file : Option (List Row)) :
    Option (List Row) × Classification :=
  if only_unmodified_records records then (file, records)
  else
    (some (headerRow :: (rowsFor records).map serializeRecord),
     { new := mutateBucket records.new,
       unmodified := mutateBucket records.unmodified,
       updated := mutateBucket records.updated,
       deleted := records.deleted })

/-- Behaviour of `update_db_info` when an exception is raised after
`failAfter` data rows have been written: `open(..., "w")` has already
truncated the destination, `DictWriter` has emitted the header and the
first `failAfter` rows, and the broad `except` merely prints the
exception, leaving the partial file on disk. -/
def update_db_info_failing (records : Classification) (file : Option (List Row))
    (failAfter : Nat) : Option (List Row) :=
  if only_unmodified_records records then file
  else some (headerRow :: ((rowsFor records).take failAfter).map serializeRecord)

/-- One full run over the store file, as `main` (src/parser.py lines
267-277) sequences it: match against the store, then update.  When the
matcher returns `None`, `main` raises before any write (`None.items()`
on line 271), leaving the file untouched. -/
def runOnce (web : List (Key × Record)) (file : Option (List Row)) :
    Option (List Row) × Option Classification :=
  match match_ieee_cs_cfp_information_with_db web file with
  | none => (file, none)
  | some c =>
    let out := update_db_info c file
    (out.1, some out.2)

/-- The four-way key classifier written from the words of spec section
4.4 (set algebra over keys), used to compare the spec with
`classifyRecords`. -/
def specKeyStatus (web db : List (Key × Record)) (k : Key) : Option DbRecordStatus :=
  match alookup web k, alookup db k with
  | some w, some d =>
    if w = d then some DbRecordStatus.UNMODIFIED else some DbRecordStatus.UPDATED
  | some _, none => some DbRecordStatus.NEW
  | none, some _ => some DbRecordStatus.DELETED
  | none, none => none

/-- Keys of the union of the two snapshots, fresh keys first. -/
def unionKeys (web db : List (Key × Record)) : List Key :=
  akeys web ++ (akeys db).filter (fun k => decide (k ∉ akeys web))

/-- Number of records a bucket holds (a `None` bucket holds zero). -/
def bucketLen (b : Option (List Record)) : Nat :=
  (b.getD []).length

/-- Well-formedness of one optional text field as both the extraction
boundary and a save/load cycle produce it: absent or non-empty. -/
def wfField (o : Option String) : Prop :=
  o ≠ some ""

instance (o : Option String) : Decidable (wfField o) :=
  inferInstanceAs (Decidable (o ≠ some ""))

/-- Well-formedness of a deadline value before any write: absent, or a
date within the ranges `datetime` enforces; never the formatted text. -/
def wfDeadline : Option DL → Prop
  | none => True
  | some (DL.date d) => validDate d
  | some (DL.text _) => False

instance decWfDeadline : (o : Option DL) → Decidable (wfDeadline o)
  | none => Decidable.isTrue trivial
  | some (DL.date d) => inferInstanceAs (Decidable (validDate d))
  | some (DL.text _) => Decidable.isFalse id

/-- Well-formed in-memory record: every present text field non-empty
and the deadline a valid date or absent. -/
def wfRecord (r : Record) : Prop :=
  wfField r.name ∧ wfField r.title ∧ wfField r.summary ∧
    wfField r.titleLink ∧ wfField r.actionsLink ∧ wfDeadline r.deadline

instance (r : Record) : Decidable (wfRecord r) :=
  inferInstanceAs (Decidable (_ ∧ _))

/-- Well-formed fresh observation set: a dict (no duplicate keys) whose
keys were computed by `create_composite_key` from each record, holding
well-formed records. -/
def wfWeb (web : List (Key × Record)) : Prop :=
  (akeys web).Nodup ∧ ∀ p ∈ web, p.1 = freshKey p.2 ∧ wfRecord p.2

/-- Value accumulated by the digit readers over a character list. -/
def foldVal (a : Nat) (cs : List Char) : Nat :=
  cs.foldl (fun x c => x * 10 + charVal c) a

/-- Ordering on records stated the way spec section 4.5 states it:
records sorted ascending by deadline, and a record lacking a deadline
never precedes one that has one (dated-versus-dated pairs compare
chronologically; formatted-text deadlines never occur before a write). -/
def dlOrder (a b : Record) : Prop :=
  match a.deadline, b.deadline with
  | some (DL.date d1), some (DL.date d2) => dateLE d1 d2
  | none, some _ => False
  | _, _ => True

instance (web : List (Key × Record)) : Decidable (wfWeb web) :=
  inferInstanceAs (Decidable (_ ∧ _))

/-- Builder for concrete sample records used to evaluate the embedded
code on explicit inputs. -/
def sampleRecord (t : String) (dl : Option DL) : Record :=
  { type := MediaType.CONFERENCE, name := some "IEEE Software", title := some t,
    summary := some "Call for papers", deadline := dl,
    titleLink := some "https-link", actionsLink := some "https-link" }

/-- Concrete data for evaluating the partition claim. -/
def rc1 : Record := sampleRecord "K1" none

def web1 : List (Key × Record) := [(freshKey rc1, rc1)]

def dbw1 : List (Key × Record) := [(freshKey rc1, rc1)]

/-- Concrete record for the key-agreement claim. -/
def rc2 : Record := sampleRecord "K2" (some (DL.date (Date.mk 2026 2 28)))

/-- Record observed with a present-but-empty title, as the extraction
boundary produces for whitespace-only anchor text (src/parser.py line
49 returns the stripped text even when stripping empties it): the fresh
key forms, because the empty string is not `None` for
`create_composite_key`. -/
def rc2bad : Record :=
  { type := MediaType.CONFERENCE, name := some "IEEE Software", title := some "",
    summary := some "Call for papers", deadline := none,
    titleLink := some "https-link", actionsLink := some "https-link" }

/-- Concrete data for the partial-write exhibit: two NEW records to
write and one previously persisted record. -/
def rc3a : Record := sampleRecord "N1" none

def rc3b : Record := sampleRecord "N2" none

def rc3p : Record := sampleRecord "P" none

def c3Class : Classification :=
  Classification.mk (some [rc3a, rc3b]) (some []) (some []) (some [])

def file3 : Option (List Row) := some [headerRow, serializeRecord rc3p]

/-- Concrete data for the skip-write claim. -/
def rc4 : Record := sampleRecord "K4" none

def web4 : List (Key × Record) := [(freshKey rc4, rc4)]

def c4skip : Classification :=
  Classification.mk (some []) (some [rc4]) (some []) (some [])

/-- The three UPDATED records of the ordering example of spec section 8:
deadlines 2025-05-01, absent, 2025-01-01, in that input order. -/
def rex1 : Record := sampleRecord "A" (some (DL.date (Date.mk 2025 5 1)))

def rex2 : Record := sampleRecord "B" none

def rex3 : Record := sampleRecord "C" (some (DL.date (Date.mk 2025 1 1)))

def cEx5 : Classification :=
  Classification.mk (some []) (some []) (some [rex1, rex2, rex3]) (some [])

def file5 : Option (List Row) := some [headerRow, serializeRecord (sampleRecord "Old" none)]

/-- Concrete data for the empty-fresh-set exhibit: a store holding one
record that the degraded run will classify as DELETED. -/
def rc6 : Record := sampleRecord "Gone" none

def file6 : Option (List Row) := some [headerRow, serializeRecord rc6]

/-- Concrete record with the round-trip example deadline 2025-03-14. -/
def rc8 : Record := sampleRecord "K8" (some (DL.date (Date.mk 2025 3 14)))

/-- Concrete data for the mutation claim: one dated NEW record, one
undated UPDATED record (also standing in the DELETED bucket). -/
def rc10a : Record := sampleRecord "T10" (some (DL.date (Date.mk 2025 7 4)))

def rc10b : Record := sampleRecord "U10" none

def c10c : Classification :=
  Classification.mk (some [rc10a]) (some []) (some [rc10b]) (some [rc10b])

/-! ### Lemmas about the fixed calendar-date format -/

/-- The fueled digit list agrees with `Nat.digits` base 10 whenever the
fuel covers the number. -/
theorem digitsRevFuel_eq_digits : ∀ (fuel n : Nat), n ≤ fuel →
    digitsRevFuel fuel n = Nat.digits 10 n := by
  intro fuel
  induction fuel with
  | zero =>
    intro n hn
    have hn0 : n = 0 := Nat.le_zero.mp hn
    subst hn0
    simp [digitsRevFuel]
  | succ f ih =>
    intro n hn
    match n with
    | 0 => simp [digitsRevFuel]
    | m + 1 =>
      have hdiv : (m + 1) / 10 < m + 1 := Nat.div_lt_self (Nat.succ_pos m) (by omega)
      have hle : (m + 1) / 10 ≤ f := by omega
      have hd := Nat.digits_def' (show (1 : Nat) < 10 by omega) (Nat.succ_pos m)
      rw [hd]
      show (m + 1) % 10 :: digitsRevFuel f ((m + 1) / 10) = _
      rw [ih _ hle]

/-- A decimal digit renders to a character whose value reads back. -/
theorem charVal_digitChar {d : Nat} (h : d < 10) :
    charVal (Nat.digitChar d) = d := by
  interval_cases d <;> decide

/-- A decimal digit renders to a digit character. -/
theorem isDigit_digitChar {d : Nat} (h : d < 10) :
    (Nat.digitChar d).isDigit = true := by
  interval_cases d <;> decide

theorem foldVal_nil (a : Nat) : foldVal a [] = a := rfl

theorem foldVal_cons (a : Nat) (c : Char) (cs : List Char) :
    foldVal a (c :: cs) = foldVal (a * 10 + charVal c) cs := rfl

theorem foldVal_append (a : Nat) (cs1 cs2 : List Char) :
    foldVal a (cs1 ++ cs2) = foldVal (foldVal a cs1) cs2 :=
  List.foldl_append _ _ _ _

theorem foldVal_replicate_zero (k : Nat) : ∀ a : Nat,
    foldVal a (List.replicate k '0') = a * 10 ^ k := by
  induction k with
  | zero => intro a; simp [foldVal]
  | succ j ih =>
    intro a
    rw [List.replicate_succ, foldVal_cons, ih]
    have : charVal '0' = 0 := rfl
    rw [this]
    ring

/-- Reading back the rendered digits of a digit list below the base
recovers its little-endian value. -/
theorem foldr_digitChar_eq_ofDigits : ∀ L : List Nat, (∀ d ∈ L, d < 10) →
    L.foldr (fun d acc => acc * 10 + charVal (Nat.digitChar d)) 0 = Nat.ofDigits 10 L := by
  intro L
  induction L with
  | nil => intro _; rfl
  | cons hd tl ih =>
    intro h
    have hhd : hd < 10 := h hd (List.mem_cons_self hd tl)
    have htl : ∀ d ∈ tl, d < 10 := fun d hd2 => h d (List.mem_cons_of_mem _ hd2)
    simp only [List.foldr_cons, ih htl, charVal_digitChar hhd, Nat.ofDigits_cons]
    ring

/-- Reading the rendered big-endian digits of `n` recovers `n`. -/
theorem foldVal_digitsBE (n : Nat) : foldVal 0 (digitsBE n) = n := by
  unfold digitsBE foldVal
  rw [digitsRevFuel_eq_digits n n (Nat.le_refl n), List.foldl_map, List.foldl_reverse]
  have h10 : ∀ d ∈ Nat.digits 10 n, d < 10 :=
    fun d hd => Nat.digits_lt_base (by omega) hd
  have := foldr_digitChar_eq_ofDigits (Nat.digits 10 n) h10
  simpa [Nat.ofDigits_digits] using this

/-- Reading the zero-padded rendered digits of `n` recovers `n`. -/
theorem foldVal_padLeft (w n : Nat) : foldVal 0 (padLeft w (digitsBE n)) = n := by
  unfold padLeft
  rw [foldVal_append, foldVal_replicate_zero, Nat.zero_mul, foldVal_digitsBE]

/-- Every character of a zero-padded digit rendering is a digit. -/
theorem padLeft_isDigit (w n : Nat) :
    ∀ c ∈ padLeft w (digitsBE n), c.isDigit = true := by
  intro c hc
  unfold padLeft at hc
  rcases List.mem_append.mp hc with h | h
  · rw [List.eq_of_mem_replicate h]; decide
  · unfold digitsBE at h
    rw [digitsRevFuel_eq_digits n n (Nat.le_refl n)] at h
    rcases List.mem_map.mp h with ⟨d, hd, rfl⟩
    have : d < 10 := Nat.digits_lt_base (by omega) (List.mem_reverse.mp hd)
    exact isDigit_digitChar this

theorem padLeft_length {w : Nat} {cs : List Char} (h : cs.length ≤ w) :
    (padLeft w cs).length = w := by
  unfold padLeft
  simp only [List.length_append, List.length_replicate]
  omega

/-- A number below `10 ^ k` renders into at most `k` digits. -/
theorem digitsBE_length_le {n k : Nat} (h : n < 10 ^ k) :
    (digitsBE n).length ≤ k := by
  unfold digitsBE
  rw [digitsRevFuel_eq_digits n n (Nat.le_refl n)]
  simp only [List.length_map, List.length_reverse]
  by_cases hn : n = 0
  · subst hn; simp
  · by_contra hgt
    have hk1 : k + 1 ≤ (Nat.digits 10 n).length := by omega
    have h1 : (10 : Nat) ^ (Nat.digits 10 n).length ≤ 10 * n :=
      Nat.base_pow_length_digits_le 10 n (by omega) hn
    have h2 : (10 : Nat) ^ (k + 1) ≤ 10 ^ (Nat.digits 10 n).length :=
      Nat.pow_le_pow_right (by omega) hk1
    have h3 : (10 : Nat) ^ (k + 1) = 10 * 10 ^ k := by ring
    have : 10 * 10 ^ k ≤ 10 * n := by omega
    have : 10 ^ k ≤ n := Nat.le_of_mul_le_mul_left this (by omega)
    omega

/-- Reading exactly `cs.length` digits off `cs ++ rest` consumes `cs`. -/
theorem readExactDigits_append : ∀ (cs : List Char) (a : Nat) (rest : List Char),
    (∀ c ∈ cs, c.isDigit = true) →
    readExactDigits a cs.length (cs ++ rest) = some (foldVal a cs, rest) := by
  intro cs
  induction cs with
  | nil => intro a rest _; rfl
  | cons c cs ih =>
    intro a rest h
    have hc : c.isDigit = true := h c (List.mem_cons_self c cs)
    show readExactDigits a (cs.length + 1) (c :: (cs ++ rest)) = _
    unfold readExactDigits
    rw [if_pos hc, foldVal_cons]
    exact ih _ rest (fun x hx => h x (List.mem_cons_of_mem _ hx))

theorem readOneOrTwoDigits_two {c1 c2 : Char} (rest : List Char)
    (h1 : c1.isDigit = true) (h2 : c2.isDigit = true) :
    readOneOrTwoDigits (c1 :: c2 :: rest) = some (charVal c1 * 10 + charVal c2, rest) := by
  simp [readOneOrTwoDigits, h1, h2]

theorem daysInMonth_le_31 (y m : Nat) : daysInMonth y m ≤ 31 := by
  unfold daysInMonth
  split
  · split <;> omega
  · split <;> omega

/-- Round trip of the fixed `%Y-%m-%d` format: parsing the rendering of
any valid date yields the date back. -/
theorem parseDate_formatDate (dt : Date) (h : validDate dt) :
    parseDate (formatDate dt) = some dt := by
  obtain ⟨h1, h2, h3, h4, h5, h6⟩ := h
  have hm99 : dt.month < 100 := by omega
  have hd99 : dt.day < 100 := by
    have := daysInMonth_le_31 dt.year dt.month
    omega
  have hYlen : (padLeft 4 (digitsBE dt.year)).length = 4 :=
    padLeft_length (digitsBE_length_le (show dt.year < 10 ^ 4 by norm_num; omega))
  have hMlen : (padLeft 2 (digitsBE dt.month)).length = 2 :=
    padLeft_length (digitsBE_length_le (show dt.month < 10 ^ 2 by norm_num; omega))
  have hDlen : (padLeft 2 (digitsBE dt.day)).length = 2 :=
    padLeft_length (digitsBE_length_le (show dt.day < 10 ^ 2 by norm_num; omega))
  obtain ⟨c1, c2, hM⟩ := List.length_eq_two.mp hMlen
  obtain ⟨e1, e2, hD⟩ := List.length_eq_two.mp hDlen
  have hMval : charVal c1 * 10 + charVal c2 = dt.month := by
    have hv := foldVal_padLeft 2 dt.month
    rw [hM] at hv
    simpa [foldVal_cons, foldVal_nil] using hv
  have hDval : charVal e1 * 10 + charVal e2 = dt.day := by
    have hv := foldVal_padLeft 2 dt.day
    rw [hD] at hv
    simpa [foldVal_cons, foldVal_nil] using hv
  have hMdig := padLeft_isDigit 2 dt.month
  rw [hM] at hMdig
  have hDdig := padLeft_isDigit 2 dt.day
  rw [hD] at hDdig
  have hlist : (formatDate dt).toList =
      padLeft 4 (digitsBE dt.year) ++ ('-' :: c1 :: c2 :: '-' :: e1 :: e2 :: []) := by
    show padLeft 4 (digitsBE dt.year) ++
        '-' :: (padLeft 2 (digitsBE dt.month) ++ '-' :: padLeft 2 (digitsBE dt.day)) = _
    rw [hM, hD]
    simp
  have hread4 : readExactDigits 0 4 ((formatDate dt).toList) =
      some (dt.year, '-' :: c1 :: c2 :: '-' :: e1 :: e2 :: []) := by
    rw [hlist]
    have h4 := readExactDigits_append (padLeft 4 (digitsBE dt.year)) 0
      ('-' :: c1 :: c2 :: '-' :: e1 :: e2 :: []) (padLeft_isDigit 4 dt.year)
    rw [hYlen, foldVal_padLeft] at h4
    exact h4
  have hreadM : readOneOrTwoDigits (c1 :: c2 :: '-' :: e1 :: e2 :: []) =
      some (dt.month, '-' :: e1 :: e2 :: []) := by
    rw [readOneOrTwoDigits_two _ (hMdig c1 (by simp)) (hMdig c2 (by simp)), hMval]
  have hreadD : readOneOrTwoDigits (e1 :: e2 :: []) = some (dt.day, []) := by
    rw [readOneOrTwoDigits_two _ (hDdig e1 (by simp)) (hDdig e2 (by simp)), hDval]
  unfold parseDate
  rw [hread4]
  dsimp only
  rw [if_pos rfl, hreadM]
  dsimp only
  rw [if_pos rfl, hreadD]
  dsimp only
  rw [if_pos (show (([] : List Char) = [] ∧ 1 ≤ dt.year ∧ 1 ≤ dt.month ∧ dt.month ≤ 12 ∧
      1 ≤ dt.day ∧ dt.day ≤ daysInMonth dt.year dt.month) from ⟨rfl, h1, h3, h4, h5, h6⟩)]

/-! ### Lemmas about field serialization and the load loop -/

theorem mediaTypeStr_ne_empty (t : MediaType) : ¬ mediaTypeStr t = "" := by
  cases t <;> decide

theorem from_value_mediaTypeStr (t : MediaType) :
    MediaType.from_value (mediaTypeStr t) = t := by
  cases t <;> decide

theorem normEmpty_getD {o : Option String} (h : wfField o) :
    normEmpty (o.getD "") = o := by
  cases o with
  | none => rfl
  | some s =>
    have hs : ¬ s = "" := by
      intro he
      exact h (by rw [he])
    simp [normEmpty, hs]

theorem formatDate_ne_empty (d : Date) : ¬ formatDate d = "" := by
  intro h
  have hdata : (formatDate d).toList = "".toList := by rw [h]
  have hlen : (formatDate d).toList.length = 0 := by rw [hdata]; rfl
  unfold formatDate at hlen
  simp [List.length_append] at hlen

/-- The identity key computed for a persisted row equals the identity
key the record was observed with, provided the name and title were not
the empty string (the extraction boundary never produces empty strings
for present fields, only `None` for absent ones). -/
theorem rowKey_serializeRecord (r : Record) (hn : wfField r.name) (ht : wfField r.title) :
    rowKey (serializeRecord r) = freshKey r := by
  unfold rowKey serializeRecord freshKey
  dsimp only
  rw [normEmpty_getD hn, normEmpty_getD ht]
  unfold normEmpty
  rw [if_neg (mediaTypeStr_ne_empty r.type)]

theorem mediaTypeProc_roundtrip (t : MediaType) :
    mediaTypeProc (normEmpty (mediaTypeStr t)) = t := by
  unfold normEmpty
  rw [if_neg (mediaTypeStr_ne_empty t)]
  show MediaType.from_value (mediaTypeStr t) = t
  exact from_value_mediaTypeStr t

theorem parseDeadlineField_serialized {dl : Option DL} (h : wfDeadline dl) :
    parseDeadlineField (normEmpty (renderDeadline dl)) = some dl := by
  match dl with
  | none => simp [renderDeadline, normEmpty, parseDeadlineField]
  | some (DL.date d0) =>
    have hv : validDate d0 := h
    simp [renderDeadline, normEmpty, formatDate_ne_empty d0, parseDeadlineField,
      parseDate_formatDate d0 hv]
  | some (DL.text s0) => exact h.elim

/-- Full save/load round trip of one record: deserializing the row that
`update_db_info` writes for a well-formed record gives back the record
itself, keyed by the key it was observed with. -/
theorem loadRow_serializeRecord (r : Record) (h : wfRecord r) :
    loadRow (serializeRecord r) = some (freshKey r, r) := by
  obtain ⟨hn, ht, hs, htl, hal, hd⟩ := h
  have hkey : rowKey (serializeRecord r) = freshKey r := rowKey_serializeRecord r hn ht
  have hdl : parseDeadlineField (normEmpty (serializeRecord r).deadline) = some r.deadline := by
    show parseDeadlineField (normEmpty (renderDeadline r.deadline)) = some r.deadline
    exact parseDeadlineField_serialized hd
  unfold loadRow
  rw [hdl]
  dsimp only
  rw [hkey]
  unfold serializeRecord
  dsimp only
  rw [normEmpty_getD hn, normEmpty_getD ht, normEmpty_getD hs, normEmpty_getD htl,
    normEmpty_getD hal, mediaTypeProc_roundtrip r.type]

/-! ### Lemmas about association lists (Python dicts) -/

theorem alookup_mem : ∀ {l : List (Key × Record)} {k : Key} {r : Record},
    alookup l k = some r → (k, r) ∈ l := by
  intro l
  induction l with
  | nil =>
    intro k r h
    exact absurd h (by simp [alookup])
  | cons p rest ih =>
    intro k r h
    rcases p with ⟨k2, r2⟩
    unfold alookup at h
    by_cases hk : k = k2
    · rw [if_pos hk] at h
      injection h with h2
      subst hk
      subst h2
      exact List.mem_cons_self _ _
    · rw [if_neg hk] at h
      exact List.mem_cons_of_mem _ (ih h)

theorem mem_akeys_of_alookup {l : List (Key × Record)} {k : Key} {r : Record}
    (h : alookup l k = some r) : k ∈ akeys l := by
  unfold akeys
  exact List.mem_map.mpr ⟨(k, r), alookup_mem h, rfl⟩

theorem alookup_eq_none_iff : ∀ (l : List (Key × Record)) (k : Key),
    alookup l k = none ↔ k ∉ akeys l := by
  intro l
  induction l with
  | nil => intro k; simp [alookup, akeys]
  | cons p rest ih =>
    intro k
    rcases p with ⟨k2, r2⟩
    by_cases hk : k = k2
    · subst hk
      simp [alookup, akeys]
    · simp [alookup, akeys, hk] at ih ⊢
      exact ih k

theorem alookup_isSome_iff {l : List (Key × Record)} {k : Key} :
    (∃ r, alookup l k = some r) ↔ k ∈ akeys l := by
  constructor
  · intro ⟨r, hr⟩
    exact mem_akeys_of_alookup hr
  · intro hm
    match hl : alookup l k with
    | some r => exact ⟨r, rfl⟩
    | none => exact absurd hm ((alookup_eq_none_iff l k).mp hl)

theorem alookup_of_mem_nodup : ∀ {l : List (Key × Record)},
    (akeys l).Nodup → ∀ {k : Key} {r : Record}, (k, r) ∈ l → alookup l k = some r := by
  intro l
  induction l with
  | nil => intro _ k r h; exact absurd h (List.not_mem_nil _)
  | cons p rest ih =>
    intro hnd k r h
    rcases p with ⟨k2, r2⟩
    have hnd2 : (akeys rest).Nodup := (List.nodup_cons.mp hnd).2
    have hk2 : k2 ∉ akeys rest := (List.nodup_cons.mp hnd).1
    rcases List.mem_cons.mp h with heq | hmem
    · injection heq with he1 he2
      subst he1; subst he2
      unfold alookup
      rw [if_pos rfl]
    · by_cases hk : k = k2
      · subst hk
        have : k ∈ akeys rest := List.mem_map.mpr ⟨(k, r), hmem, rfl⟩
        exact absurd this hk2
      · unfold alookup
        rw [if_neg hk]
        exact ih hnd2 hmem

theorem dinsert_of_not_mem : ∀ {m : List (Key × Record)} {k : Key} (r : Record),
    k ∉ akeys m → dinsert m k r = m ++ [(k, r)] := by
  intro m
  induction m with
  | nil => intro k r _; rfl
  | cons p rest ih =>
    intro k r h
    rcases p with ⟨k2, r2⟩
    have hk : ¬ k = k2 := by
      intro he
      exact h (by rw [he]; exact List.mem_cons_self _ _)
    have hrest : k ∉ akeys rest := by
      intro hm
      exact h (List.mem_cons_of_mem _ hm)
    unfold dinsert
    rw [if_neg hk, ih r hrest]
    rfl

theorem mem_akeys_dinsert : ∀ (m : List (Key × Record)) (k : Key) (r : Record) (x : Key),
    x ∈ akeys (dinsert m k r) ↔ x = k ∨ x ∈ akeys m := by
  intro m
  induction m with
  | nil => intro k r x; simp [dinsert, akeys]
  | cons p rest ih =>
    intro k r x
    rcases p with ⟨k2, r2⟩
    by_cases hk : k = k2
    · subst hk
      unfold dinsert
      rw [if_pos rfl]
      show x ∈ k :: akeys rest ↔ x = k ∨ x ∈ k :: akeys rest
      simp only [List.mem_cons]
      tauto
    · unfold dinsert
      rw [if_neg hk]
      show x ∈ k2 :: akeys (dinsert rest k r) ↔ x = k ∨ x ∈ k2 :: akeys rest
      simp only [List.mem_cons]
      rw [ih k r x]
      tauto

theorem akeys_dinsert_nodup : ∀ {m : List (Key × Record)} (k : Key) (r : Record),
    (akeys m).Nodup → (akeys (dinsert m k r)).Nodup := by
  intro m
  induction m with
  | nil => intro k r _; simp [dinsert, akeys]
  | cons p rest ih =>
    intro k r hnd
    rcases p with ⟨k2, r2⟩
    have hk2 : k2 ∉ akeys rest := (List.nodup_cons.mp hnd).1
    have hnd2 : (akeys rest).Nodup := (List.nodup_cons.mp hnd).2
    by_cases hk : k = k2
    · subst hk
      unfold dinsert
      rw [if_pos rfl]
      exact hnd
    · unfold dinsert
      rw [if_neg hk]
      show (akeys ((k2, r2) :: dinsert rest k r)).Nodup
      rw [show akeys ((k2, r2) :: dinsert rest k r) = k2 :: akeys (dinsert rest k r) from rfl]
      rw [List.nodup_cons]
      constructor
      · intro hm
        rcases (mem_akeys_dinsert rest k r k2).mp hm with he | hm2
        · exact hk he.symm
        · exact hk2 hm2
      · exact ih k r hnd2

/-! ### Lemmas about building the loaded snapshot -/

theorem buildDbDataAux_nodup : ∀ (rows : List Row) (m db : List (Key × Record)),
    (akeys m).Nodup → buildDbDataAux m rows = some db → (akeys db).Nodup := by
  intro rows
  induction rows with
  | nil =>
    intro m db hnd h
    injection h with h2
    subst h2
    exact hnd
  | cons row rest ih =>
    intro m db hnd h
    unfold buildDbDataAux at h
    match hl : loadRow row with
    | some kr =>
      rw [hl] at h
      exact ih _ db (akeys_dinsert_nodup kr.1 kr.2 hnd) h
    | none =>
      rw [hl] at h
      exact absurd h (by simp)

/-- Keys of a loaded snapshot never repeat: the dict builder overwrites
on key collision. -/
theorem buildDbData_nodup {rows : List Row} {db : List (Key × Record)}
    (h : buildDbData rows = some db) : (akeys db).Nodup :=
  buildDbDataAux_nodup rows [] db (by simp [akeys]) h

/-- Loading the rows serialized from well-formed records with fresh
pairwise-distinct keys reproduces exactly those records keyed by their
fresh keys. -/
theorem buildDbDataAux_serialized : ∀ (L : List Record) (m : List (Key × Record)),
    (∀ r ∈ L, wfRecord r) → (akeys m ++ L.map freshKey).Nodup →
    buildDbDataAux m (L.map serializeRecord) =
      some (m ++ L.map (fun r => (freshKey r, r))) := by
  intro L
  induction L with
  | nil => intro m _ _; simp [buildDbDataAux]
  | cons r L ih =>
    intro m hwf hnd
    have hwfr : wfRecord r := hwf r (List.mem_cons_self r L)
    have hwfL : ∀ x ∈ L, wfRecord x := fun x hx => hwf x (List.mem_cons_of_mem _ hx)
    have hkm : freshKey r ∉ akeys m := by
      intro hm
      have hdisj := (List.nodup_append.mp (by simpa using hnd)).2.2
      exact hdisj hm (List.mem_cons_self _ _)
    show buildDbDataAux m (serializeRecord r :: L.map serializeRecord) = _
    unfold buildDbDataAux
    rw [loadRow_serializeRecord r hwfr]
    dsimp only
    rw [dinsert_of_not_mem r hkm]
    have hnd2 : (akeys (m ++ [(freshKey r, r)]) ++ L.map freshKey).Nodup := by
      have hak : akeys (m ++ [(freshKey r, r)]) = akeys m ++ [freshKey r] := by
        simp [akeys]
      rw [hak, List.append_assoc]
      simpa using hnd
    rw [ih (m ++ [(freshKey r, r)]) hwfL hnd2]
    simp

theorem buildDbData_serialized (L : List Record)
    (hwf : ∀ r ∈ L, wfRecord r) (hnd : (L.map freshKey).Nodup) :
    buildDbData (L.map serializeRecord) = some (L.map (fun r => (freshKey r, r))) := by
  unfold buildDbData
  have h := buildDbDataAux_serialized L [] hwf (by simpa [akeys] using hnd)
  simpa using h

/-! ### Counting lemmas for the partition -/

theorem length_filter_three {α : Type} (l : List α) (f1 f2 f3 : α → Bool)
    (h : ∀ x ∈ l, (f1 x).toNat + (f2 x).toNat + (f3 x).toNat = 1) :
    (l.filter f1).length + (l.filter f2).length + (l.filter f3).length = l.length := by
  induction l with
  | nil => simp
  | cons x l ih =>
    have hx := h x (List.mem_cons_self x l)
    have ihl := ih (fun y hy => h y (List.mem_cons_of_mem x hy))
    simp only [List.filter_cons, List.length_cons]
    cases hb1 : f1 x <;> cases hb2 : f2 x <;> cases hb3 : f3 x <;>
      rw [hb1, hb2, hb3] at hx <;>
      simp only [Bool.toNat_true, Bool.toNat_false] at hx <;>
      simp only [if_true, if_false, List.length_cons, Bool.false_eq_true,
        Bool.true_eq_false, if_neg, reduceCtorEq] <;>
      omega

theorem filter_key_map_fst (db : List (Key × Record)) (pd : Key → Bool) :
    (db.filter (fun q => pd q.1)).map Prod.fst = (db.map Prod.fst).filter pd := by
  induction db with
  | nil => rfl
  | cons q rest ih =>
    cases hq : pd q.1 <;> simp [List.filter_cons, hq, ih]

/-! ### Lemmas about the writer ordering and the classification -/

theorem sortRecords_perm (l : List Record) : (sortRecords l).Perm l :=
  List.perm_insertionSort recLE l

theorem getD_eq_nil_of_truthy_false {b : Option (List Record)} (h : truthy b = false) :
    b.getD [] = [] := by
  cases b with
  | none => rfl
  | some l =>
    cases l with
    | nil => rfl
    | cons x xs => exact absurd h (by simp [truthy])

theorem statusRows_perm (c : Classification) (st : DbRecordStatus) :
    (statusRows c st).Perm ((getBucket c st).getD []) := by
  unfold statusRows
  cases hb : truthy (getBucket c st)
  · rw [if_neg (by simp [hb])]
    rw [getD_eq_nil_of_truthy_false hb]
  · rw [if_pos (by simp [hb])]
    exact sortRecords_perm _

/-- The three fresh-side filters of the classification partition the
fresh snapshot: every fresh entry is NEW, UPDATED or UNMODIFIED. -/
theorem filters_partition_perm (web db : List (Key × Record)) :
    (web.filter (fun p => decide (p.1 ∉ akeys db)) ++
      (web.filter (fun p => decide (p.1 ∈ akeys db) && !decide (alookup db p.1 = some p.2)) ++
        web.filter (fun p => decide (p.1 ∈ akeys db) && decide (alookup db p.1 = some p.2)))).Perm
      web := by
  simp only [decide_not]
  have h2 := List.filter_append_perm
    (fun p : Key × Record => !decide (alookup db p.1 = some p.2))
    (web.filter (fun x => decide (x.1 ∈ akeys db)))
  simp only [Bool.not_not] at h2
  rw [List.filter_filter, List.filter_filter] at h2
  have e2 : web.filter (fun a => !decide (alookup db a.1 = some a.2) && decide (a.1 ∈ akeys db)) =
      web.filter (fun p => decide (p.1 ∈ akeys db) && !decide (alookup db p.1 = some p.2)) :=
    List.filter_congr (fun a _ => Bool.and_comm _ _)
  have e3 : web.filter (fun a => decide (alookup db a.1 = some a.2) && decide (a.1 ∈ akeys db)) =
      web.filter (fun p => decide (p.1 ∈ akeys db) && decide (alookup db p.1 = some p.2)) :=
    List.filter_congr (fun a _ => Bool.and_comm _ _)
  rw [e2, e3] at h2
  have h1 := List.filter_append_perm (fun p : Key × Record => !decide (p.1 ∈ akeys db)) web
  simp only [Bool.not_not] at h1
  exact (h2.append_left _).trans h1

/-- The records handed to the writer by a classification computed from
`web` and `db` are, up to order, exactly the fresh records. -/
theorem rowsFor_classifyRecords_perm (web db : List (Key × Record)) :
    (rowsFor (classifyRecords web db)).Perm (web.map Prod.snd) := by
  have pN : (statusRows (classifyRecords web db) DbRecordStatus.NEW).Perm
      ((web.filter (fun p => decide (p.1 ∉ akeys db))).map Prod.snd) :=
    statusRows_perm _ _
  have pU : (statusRows (classifyRecords web db) DbRecordStatus.UPDATED).Perm
      ((web.filter (fun p =>
        decide (p.1 ∈ akeys db) && !decide (alookup db p.1 = some p.2))).map Prod.snd) :=
    statusRows_perm _ _
  have eU : (web.filter (fun p =>
        decide (p.1 ∈ akeys db) && decide (alookup db p.1 = some p.2))).map
        (fun p => (alookup db p.1).getD p.2) =
      (web.filter (fun p =>
        decide (p.1 ∈ akeys db) && decide (alookup db p.1 = some p.2))).map Prod.snd := by
    apply List.map_congr_left
    intro a ha
    have hc := (List.mem_filter.mp ha).2
    have heq : alookup db a.1 = some a.2 := by
      simp only [Bool.and_eq_true, decide_eq_true_eq] at hc
      exact hc.2
    rw [heq]
    rfl
  have pM : (statusRows (classifyRecords web db) DbRecordStatus.UNMODIFIED).Perm
      ((web.filter (fun p =>
        decide (p.1 ∈ akeys db) && decide (alookup db p.1 = some p.2))).map Prod.snd) :=
    eU ▸ statusRows_perm (classifyRecords web db) DbRecordStatus.UNMODIFIED
  unfold rowsFor
  rw [List.append_assoc]
  refine (List.Perm.append pN (List.Perm.append pU pM)).trans ?_
  rw [← List.map_append, ← List.map_append]
  exact (filters_partition_perm web db).map Prod.snd

/-- When every fresh entry is found in the db with equal content, and
every db entry is keyed in the fresh set, the classification puts every
fresh record in UNMODIFIED and the other buckets are empty lists. -/
theorem classifyRecords_all_unmodified (web db : List (Key × Record))
    (H1 : ∀ p ∈ web, alookup db p.1 = some p.2)
    (H2 : ∀ q ∈ db, q.1 ∈ akeys web) :
    classifyRecords web db =
      { new := some [], unmodified := some (web.map Prod.snd),
        updated := some [], deleted := some [] } := by
  unfold classifyRecords
  simp only [Classification.mk.injEq]
  refine ⟨?_, ?_, ?_, ?_⟩
  · simp only [Option.some.injEq]
    rw [show (web.filter (fun p => decide (p.1 ∉ akeys db))) = [] from ?_]
    · rfl
    · rw [List.filter_eq_nil_iff]
      intro p hp
      simp only [decide_eq_true_eq]
      intro hno
      exact hno (mem_akeys_of_alookup (H1 p hp))
  · simp only [Option.some.injEq]
    have hf : web.filter (fun p =>
        decide (p.1 ∈ akeys db) && decide (alookup db p.1 = some p.2)) = web := by
      rw [List.filter_eq_self]
      intro p hp
      have h1 := H1 p hp
      simp [mem_akeys_of_alookup h1, h1]
    rw [hf]
    apply List.map_congr_left
    intro a ha
    rw [H1 a ha]
    rfl
  · simp only [Option.some.injEq]
    rw [show (web.filter (fun p =>
        decide (p.1 ∈ akeys db) && !decide (alookup db p.1 = some p.2))) = [] from ?_]
    · rfl
    · rw [List.filter_eq_nil_iff]
      intro p hp
      simp [H1 p hp]
  · simp only [Option.some.injEq]
    rw [show (db.filter (fun q => decide (q.1 ∉ akeys web))) = [] from ?_]
    · rfl
    · rw [List.filter_eq_nil_iff]
      intro q hq
      simp [H2 q hq]

/-- The writer sort produces a list that is pairwise ordered the way
the spec describes: ascending by deadline, absent deadlines last. -/
theorem sortRecords_sorted (l : List Record) (h : ∀ r ∈ l, wfDeadline r.deadline) :
    (sortRecords l).Pairwise dlOrder := by
  have hs : (sortRecords l).Pairwise recLE := List.sorted_insertionSort recLE l
  refine hs.imp_of_mem ?_
  intro a b ha hb hab
  have hwa : wfDeadline a.deadline := h a ((sortRecords_perm l).mem_iff.mp ha)
  have hwb : wfDeadline b.deadline := h b ((sortRecords_perm l).mem_iff.mp hb)
  unfold recLE keyLE deadlineSortKey at hab
  cases hda : a.deadline with
  | none =>
    cases hdb : b.deadline with
    | none => simp [dlOrder, hda, hdb]
    | some dl2 =>
      cases dl2 with
      | date d2 =>
        rw [hda, hdb] at hab
        simp at hab
      | text s2 =>
        rw [hdb] at hwb
        exact hwb.elim
  | some dl1 =>
    cases dl1 with
    | text s1 =>
      rw [hda] at hwa
      exact hwa.elim
    | date d1 =>
      cases hdb : b.deadline with
      | none => simp [dlOrder, hda, hdb]
      | some dl2 =>
        cases dl2 with
        | text s2 =>
          rw [hdb] at hwb
          exact hwb.elim
        | date d2 =>
          rw [hda, hdb] at hab
          simp at hab
          rw [hda] at hwa
          rw [hdb] at hwb
          have hv1 : validDate d1 := hwa
          have hv2 : validDate d2 := hwb
          obtain ⟨a1, a2, a3, a4, a5, a6⟩ := hv1
          obtain ⟨b1, b2, b3, b4, b5, b6⟩ := hv2
          have h31 := daysInMonth_le_31 d1.year d1.month
          have h32 := daysInMonth_le_31 d2.year d2.month
          simp [dlOrder, hda, hdb]
          unfold dateEnc at hab
          unfold dateLE
          omega

/-! ### Behaviour of the writer -/

theorem update_write_file (c : Classification) (f : Option (List Row))
    (h : only_unmodified_records c = false) :
    (update_db_info c f).1 = some (headerRow :: (rowsFor c).map serializeRecord) := by
  unfold update_db_info
  rw [if_neg (by simp [h])]

theorem update_skip_file (c : Classification) (f : Option (List Row))
    (h : only_unmodified_records c = true) :
    (update_db_info c f).1 = f := by
  unfold update_db_info
  rw [if_pos h]

/-- Core of the skip-write idempotence: a store file produced by writing
records that are (up to order) exactly the well-formed fresh records is
left unchanged by a further run with the same fresh set. -/
theorem runOnce_stable (web : List (Key × Record)) (hnd : (akeys web).Nodup)
    (hprop : ∀ p ∈ web, p.1 = freshKey p.2 ∧ wfRecord p.2)
    (L : List Record) (hL : L.Perm (web.map Prod.snd)) :
    (runOnce web (some (headerRow :: L.map serializeRecord))).1 =
      some (headerRow :: L.map serializeRecord) := by
  have hwfL : ∀ r ∈ L, wfRecord r := by
    intro r hr
    have hr2 : r ∈ web.map Prod.snd := hL.mem_iff.mp hr
    rcases List.mem_map.mp hr2 with ⟨p, hp, rfl⟩
    exact (hprop p hp).2
  have hkeysL : (L.map freshKey).Nodup := by
    have h1 : (L.map freshKey).Perm ((web.map Prod.snd).map freshKey) := hL.map freshKey
    rw [List.map_map] at h1
    have h2 : web.map (freshKey ∘ Prod.snd) = web.map Prod.fst := by
      apply List.map_congr_left
      intro p hp
      exact ((hprop p hp).1).symm
    rw [h2] at h1
    exact h1.symm.nodup hnd
  have hbuild : buildDbData (L.map serializeRecord) =
      some (L.map (fun r => (freshKey r, r))) := buildDbData_serialized L hwfL hkeysL
  have hmatch : match_ieee_cs_cfp_information_with_db web
      (some (headerRow :: L.map serializeRecord)) =
      some (classifyRecords web (L.map (fun r => (freshKey r, r)))) := by
    show (buildDbData (L.map serializeRecord)).map (classifyRecords web) = _
    rw [hbuild]
    rfl
  have hakeys : akeys (L.map (fun r => (freshKey r, r))) = L.map freshKey := by
    simp [akeys, List.map_map]
  have hclass : classifyRecords web (L.map (fun r => (freshKey r, r))) =
      { new := some [], unmodified := some (web.map Prod.snd),
        updated := some [], deleted := some [] } := by
    apply classifyRecords_all_unmodified
    · intro p hp
      have hk : p.1 = freshKey p.2 := (hprop p hp).1
      have hmem : p.2 ∈ L := hL.mem_iff.mpr (List.mem_map.mpr ⟨p, hp, rfl⟩)
      have hpair : (freshKey p.2, p.2) ∈ L.map (fun r => (freshKey r, r)) :=
        List.mem_map.mpr ⟨p.2, hmem, rfl⟩
      have hndk : (akeys (L.map (fun r => (freshKey r, r)))).Nodup := by
        rw [hakeys]
        exact hkeysL
      rw [hk]
      exact alookup_of_mem_nodup hndk hpair
    · intro q hq
      rcases List.mem_map.mp hq with ⟨r, hr, rfl⟩
      have hr2 : r ∈ web.map Prod.snd := hL.mem_iff.mp hr
      rcases List.mem_map.mp hr2 with ⟨p, hp, rfl⟩
      show freshKey p.2 ∈ akeys web
      rw [← (hprop p hp).1]
      exact List.mem_map.mpr ⟨p, hp, rfl⟩
  unfold runOnce
  rw [hmatch]
  dsimp only
  rw [hclass]
  match hweb : web with
  | [] =>
    have hLnil : L = [] := hL.eq_nil
    subst hLnil
    rfl
  | p :: rest =>
    apply update_skip_file
    rfl

/-- Running the pipeline twice with the same well-formed fresh snapshot
never changes the store file a second time. -/
theorem runOnce_idempotent (web : List (Key × Record)) (f0 : Option (List Row))
    (hw : wfWeb web) :
    (runOnce web (runOnce web f0).1).1 = (runOnce web f0).1 := by
  obtain ⟨hnd, hprop⟩ := hw
  match f0 with
  | none =>
    have hperm : (rowsFor (Classification.mk (some (web.map Prod.snd)) none none none)).Perm
        (web.map Prod.snd) := by
      have h1 := statusRows_perm (Classification.mk (some (web.map Prod.snd)) none none none)
        DbRecordStatus.NEW
      have h2 : statusRows (Classification.mk (some (web.map Prod.snd)) none none none)
        DbRecordStatus.UPDATED = [] := rfl
      have h3 : statusRows (Classification.mk (some (web.map Prod.snd)) none none none)
        DbRecordStatus.UNMODIFIED = [] := rfl
      unfold rowsFor
      rw [h2, h3, List.append_nil, List.append_nil]
      exact h1
    have hfirst : (runOnce web none).1 = some (headerRow ::
        (rowsFor (Classification.mk (some (web.map Prod.snd)) none none none)).map
          serializeRecord) := by
      show (update_db_info (Classification.mk (some (web.map Prod.snd)) none none none)
        none).1 = _
      exact update_write_file _ none rfl
    rw [hfirst]
    exact runOnce_stable web hnd hprop _ hperm
  | some [] => rfl
  | some (hd :: rest) =>
    match hbd : buildDbData rest with
    | none =>
      have hm : match_ieee_cs_cfp_information_with_db web (some (hd :: rest)) = none := by
        show (buildDbData rest).map (classifyRecords web) = none
        rw [hbd]
        rfl
      have hr1 : (runOnce web (some (hd :: rest))).1 = some (hd :: rest) := by
        unfold runOnce
        rw [hm]
      rw [hr1]
      exact hr1
    | some db0 =>
      have hm : match_ieee_cs_cfp_information_with_db web (some (hd :: rest)) =
          some (classifyRecords web db0) := by
        show (buildDbData rest).map (classifyRecords web) = _
        rw [hbd]
        rfl
      match hou : only_unmodified_records (classifyRecords web db0) with
      | true =>
        have hr1 : (runOnce web (some (hd :: rest))).1 = some (hd :: rest) := by
          unfold runOnce
          rw [hm]
          dsimp only
          exact update_skip_file _ _ hou
        rw [hr1]
        exact hr1
      | false =>
        have hr1 : (runOnce web (some (hd :: rest))).1 = some (headerRow ::
            (rowsFor (classifyRecords web db0)).map serializeRecord) := by
          unfold runOnce
          rw [hm]
          dsimp only
          exact update_write_file _ _ hou
        rw [hr1]
        exact runOnce_stable web hnd hprop _ (rowsFor_classifyRecords_perm web db0)

/-! ### Claim theorems -/

/-- Claim C2 as amended: both call sites concatenate type, name and
title in that order, and for every record whose present name and title
are non-empty strings (absent fields included) the identity key
computed by the loader for its persisted row equals the identity key it
was observed with fresh.  The unamended universal claim fails for
records with a present-but-empty name or title, which the extraction
boundary can produce; see the counterexample. -/
theorem claim_c2_key_agreement (r : Record) (hn : wfField r.name) (ht : wfField r.title) :
    rowKey (serializeRecord r) = freshKey r :=
  rowKey_serializeRecord r hn ht

theorem claim_c2_key_agreement_witness : rowKey (serializeRecord rc2) = freshKey rc2 :=
  claim_c2_key_agreement rc2 (by decide) (by decide)

/-- Claim C2 counterexample: the universal form of the claim is false of
the code.  A record observed with a present-but-empty title is keyed
fresh as the concatenation containing the empty string, but its
serialized row writes an empty Title column, which the loader
normalizes to absent (src/parser.py line 197), so the composite key of
the reloaded row is `None` — the loaded and fresh keys diverge and the
record would appear as both NEW and DELETED on the next run. -/
theorem claim_c2_key_agreement_counterexample :
    freshKey rc2bad = some "ConferenceIEEE Software" ∧
    rowKey (serializeRecord rc2bad) = none ∧
    rowKey (serializeRecord rc2bad) ≠ freshKey rc2bad :=
  ⟨by decide, by decide, by decide⟩

/-- Claim C3 exhibit: save is not all-or-nothing.  `update_db_info`
truncates the destination on open and writes row by row inside a broad
exception handler, so a failure after the first data row leaves a file
that is neither the prior store nor the full replacement snapshot. -/
theorem claim_c3_partial_write :
    update_db_info_failing c3Class file3 1 ≠ file3 ∧
    update_db_info_failing c3Class file3 1 ≠ (update_db_info c3Class file3).1 ∧
    update_db_info_failing c3Class file3 1 = some [headerRow, serializeRecord rc3a] :=
  ⟨by decide, by decide, by decide⟩

/-- Claim C4: when the only non-empty bucket is UNMODIFIED the writer
returns without touching the file, and running the pipeline twice with
the same well-formed fresh snapshot leaves the file of the first run
unchanged. -/
theorem claim_c4_skip_write :
    (∀ c f, only_unmodified_records c = true → (update_db_info c f).1 = f) ∧
    (∀ web f0, wfWeb web → (runOnce web (runOnce web f0).1).1 = (runOnce web f0).1) :=
  ⟨fun c f h => update_skip_file c f h,
   fun web f0 hw => runOnce_idempotent web f0 hw⟩

theorem claim_c4_skip_write_witness :
    (update_db_info c4skip (some [headerRow])).1 = some [headerRow] ∧
    (runOnce web4 (runOnce web4 none).1).1 = (runOnce web4 none).1 :=
  ⟨claim_c4_skip_write.1 c4skip (some [headerRow]) (by decide),
   claim_c4_skip_write.2 web4 none (by decide)⟩

/-- Claim C5: every write emits the header and then the NEW, UPDATED
and UNMODIFIED groups in that order (DELETED rows are never written);
the per-group sort is a permutation of the group that is pairwise
ordered ascending by deadline with absent deadlines last; and the
concrete ordering example of the spec (deadlines 2025-05-01, absent,
2025-01-01 among UPDATED records) serializes as 2025-01-01, 2025-05-01,
absent. -/
theorem claim_c5_write_ordering :
    (∀ c f, only_unmodified_records c = false →
      (update_db_info c f).1 = some (headerRow :: (rowsFor c).map serializeRecord)) ∧
    (∀ l, (sortRecords l).Perm l) ∧
    (∀ l, (∀ r ∈ l, wfDeadline r.deadline) → (sortRecords l).Pairwise dlOrder) ∧
    (update_db_info cEx5 file5).1 =
      some [headerRow, serializeRecord rex3, serializeRecord rex1, serializeRecord rex2] :=
  ⟨update_write_file, sortRecords_perm, sortRecords_sorted, by decide⟩

theorem claim_c5_write_ordering_witness :
    (update_db_info cEx5 (some [headerRow])).1 =
      some (headerRow :: (rowsFor cEx5).map serializeRecord) ∧
    (sortRecords [rex1]).Perm [rex1] ∧
    (sortRecords [rex1, rex2]).Pairwise dlOrder :=
  ⟨claim_c5_write_ordering.1 cEx5 (some [headerRow]) (by decide),
   claim_c5_write_ordering.2.1 [rex1],
   claim_c5_write_ordering.2.2.1 [rex1, rex2] (by decide)⟩

/-- Claim C6 exhibit: with an empty fresh set and an existing store, the
matcher returns an ordinary classification carrying every prior record
in DELETED and nothing anywhere else — no degraded-input signal exists
in its result type — and the writer then persists the mass deletion,
erasing the prior content down to the bare header. -/
theorem claim_c6_empty_fresh_mass_deletion :
    match_ieee_cs_cfp_information_with_db [] file6 =
      some (Classification.mk (some []) (some []) (some []) (some [rc6])) ∧
    (update_db_info (Classification.mk (some []) (some []) (some []) (some [rc6])) file6).1 =
      some [headerRow] :=
  ⟨by decide, by decide⟩

/-- Claim C7: a missing store file is not an error — the matcher
returns a classification whose NEW bucket holds exactly the fresh
records and whose other buckets hold zero records. -/
theorem claim_c7_missing_file_all_new (web : List (Key × Record)) :
    match_ieee_cs_cfp_information_with_db web none =
      some (Classification.mk (some (web.map Prod.snd)) none none none) ∧
    bucketLen (Classification.mk (some (web.map Prod.snd))
      (none : Option (List Record)) none none).new = web.length ∧
    bucketLen (Classification.mk (some (web.map Prod.snd))
      (none : Option (List Record)) none none).updated = 0 ∧
    bucketLen (Classification.mk (some (web.map Prod.snd))
      (none : Option (List Record)) none none).unmodified = 0 ∧
    bucketLen (Classification.mk (some (web.map Prod.snd))
      (none : Option (List Record)) none none).deleted = 0 :=
  ⟨rfl, by simp [bucketLen], rfl, rfl, rfl⟩

/-- Claim C8: the deadline round trip — parsing the fixed-format
rendering of any valid date yields the same calendar date, a well-formed
record with a present deadline reloads with the same deadline, and a
record saved with an absent deadline serializes an empty field and
reloads with an absent deadline. -/
theorem claim_c8_deadline_roundtrip :
    (∀ dt : Date, validDate dt → parseDate (formatDate dt) = some dt) ∧
    (∀ r dt, wfRecord r → r.deadline = some (DL.date dt) →
      ∃ k rec, loadRow (serializeRecord r) = some (k, rec) ∧
        rec.deadline = some (DL.date dt)) ∧
    (∀ r, wfRecord r → r.deadline = none →
      (serializeRecord r).deadline = "" ∧
      ∃ k rec, loadRow (serializeRecord r) = some (k, rec) ∧ rec.deadline = none) := by
  refine ⟨parseDate_formatDate, ?_, ?_⟩
  · intro r dt hwf hdl
    exact ⟨freshKey r, r, loadRow_serializeRecord r hwf, hdl⟩
  · intro r hwf hdl
    constructor
    · show renderDeadline r.deadline = ""
      rw [hdl]
      rfl
    · exact ⟨freshKey r, r, loadRow_serializeRecord r hwf, hdl⟩

theorem claim_c8_deadline_roundtrip_witness :
    parseDate (formatDate (Date.mk 2025 3 14)) = some (Date.mk 2025 3 14) ∧
    (∃ k rec, loadRow (serializeRecord rc8) = some (k, rec) ∧
      rec.deadline = some (DL.date (Date.mk 2025 3 14))) :=
  ⟨claim_c8_deadline_roundtrip.1 (Date.mk 2025 3 14) (by decide),
   claim_c8_deadline_roundtrip.2.1 rc8 (Date.mk 2025 3 14) (by decide) rfl⟩

/-- Claim C9: the identity key builder fails exactly when one of its
three arguments is absent, and otherwise returns the concatenation of
type, name and title in that order with no separator; it is a pure
function of its arguments. -/
theorem claim_c9_key_builder :
    (∀ ty nm ti : Option String,
      (create_composite_key ty nm ti = none ↔ ty = none ∨ nm = none ∨ ti = none)) ∧
    (∀ a b c : String, create_composite_key (some a) (some b) (some c) = some (a ++ b ++ c)) := by
  constructor
  · intro ty nm ti
    match ty, nm, ti with
    | none, _, _ => simp [create_composite_key]
    | some a, none, _ => simp [create_composite_key]
    | some a, some b, none => simp [create_composite_key]
    | some a, some b, some c => simp [create_composite_key]
  · intro a b c
    rfl

/-- Claim C10: on the write path `update_db_info` hands back to its
caller a classification whose NEW, UPDATED and UNMODIFIED records have
been mutated in place — every present date deadline replaced by its
formatted text — while DELETED records are untouched; records with an
absent deadline are unchanged, and the skip path mutates nothing. -/
theorem claim_c10_mutation :
    (∀ c f, only_unmodified_records c = false →
      (update_db_info c f).2 = Classification.mk (mutateBucket c.new)
        (mutateBucket c.unmodified) (mutateBucket c.updated) c.deleted) ∧
    (∀ c f, only_unmodified_records c = true → (update_db_info c f).2 = c) ∧
    (∀ r dt, r.deadline = some (DL.date dt) →
      mutateRecord r = { r with deadline := some (DL.text (formatDate dt)) }) ∧
    (∀ r, r.deadline = none → mutateRecord r = r) := by
  refine ⟨?_, ?_, ?_, ?_⟩
  · intro c f h
    unfold update_db_info
    rw [if_neg (by simp [h])]
  · intro c f h
    unfold update_db_info
    rw [if_pos h]
  · intro r dt h
    unfold mutateRecord
    rw [h]
  · intro r h
    unfold mutateRecord
    rw [h]

theorem claim_c10_mutation_witness :
    (update_db_info c10c (some [headerRow])).2 =
      Classification.mk (mutateBucket c10c.new) (mutateBucket c10c.unmodified)
        (mutateBucket c10c.updated) c10c.deleted ∧
    mutateRecord rc10a =
      { rc10a with deadline := some (DL.text (formatDate (Date.mk 2025 7 4))) } ∧
    mutateRecord rc10b = rc10b :=
  ⟨claim_c10_mutation.1 c10c (some [headerRow]) (by decide),
   claim_c10_mutation.2.2.1 rc10a (Date.mk 2025 7 4) rfl,
   claim_c10_mutation.2.2.2 rc10b rfl⟩

theorem mem_unionKeys (web db : List (Key × Record)) (k : Key) :
    k ∈ unionKeys web db ↔ k ∈ akeys web ∨ k ∈ akeys db := by
  unfold unionKeys
  simp only [List.mem_append, List.mem_filter, decide_eq_true_eq]
  constructor
  · rintro (h | ⟨h, _⟩)
    · exact Or.inl h
    · exact Or.inr h
  · rintro (h | h)
    · exact Or.inl h
    · by_cases hw : k ∈ akeys web
      · exact Or.inl hw
      · exact Or.inr ⟨h, hw⟩

/-- Claim C1: a reconciliation against an existing loaded store
classifies each key of the union of the two snapshots into exactly one
of the four buckets — fresh-only keys into NEW with fresh content,
prior-only keys into DELETED with prior content, shared keys with equal
records into UNMODIFIED and shared keys with differing records into
UPDATED with fresh content — with every union key classified and the
four bucket sizes summing to the number of union keys. -/
theorem claim_c1_partition (web db : List (Key × Record)) (hd0 : Row) (rows : List Row)
    (hrows : buildDbData rows = some db) (hw : (akeys web).Nodup) :
    match_ieee_cs_cfp_information_with_db web (some (hd0 :: rows)) =
        some (classifyRecords web db) ∧
    (∀ k r, alookup web k = some r → alookup db k = none →
      r ∈ (classifyRecords web db).new.getD []) ∧
    (∀ k r, alookup web k = none → alookup db k = some r →
      r ∈ (classifyRecords web db).deleted.getD []) ∧
    (∀ k w d2, alookup web k = some w → alookup db k = some d2 → w = d2 →
      w ∈ (classifyRecords web db).unmodified.getD []) ∧
    (∀ k w d2, alookup web k = some w → alookup db k = some d2 → w ≠ d2 →
      w ∈ (classifyRecords web db).updated.getD []) ∧
    (∀ k, k ∈ unionKeys web db ↔ (specKeyStatus web db k).isSome) ∧
    bucketLen (classifyRecords web db).new + bucketLen (classifyRecords web db).updated +
        bucketLen (classifyRecords web db).unmodified +
        bucketLen (classifyRecords web db).deleted =
      (unionKeys web db).length := by
  refine ⟨?_, ?_, ?_, ?_, ?_, ?_, ?_⟩
  · show (buildDbData rows).map (classifyRecords web) = _
    rw [hrows]
    rfl
  · intro k r h1 h2
    have hmem : (k, r) ∈ web := alookup_mem h1
    have hk : k ∉ akeys db := (alookup_eq_none_iff db k).mp h2
    show r ∈ (web.filter (fun p => decide (p.1 ∉ akeys db))).map Prod.snd
    exact List.mem_map.mpr ⟨(k, r), List.mem_filter.mpr ⟨hmem, by simpa using hk⟩, rfl⟩
  · intro k r h1 h2
    have hmem : (k, r) ∈ db := alookup_mem h2
    have hk : k ∉ akeys web := (alookup_eq_none_iff web k).mp h1
    show r ∈ (db.filter (fun q => decide (q.1 ∉ akeys web))).map Prod.snd
    exact List.mem_map.mpr ⟨(k, r), List.mem_filter.mpr ⟨hmem, by simpa using hk⟩, rfl⟩
  · intro k w d2 h1 h2 heq
    subst heq
    have hmem : (k, w) ∈ web := alookup_mem h1
    show w ∈ (web.filter (fun p =>
      decide (p.1 ∈ akeys db) && decide (alookup db p.1 = some p.2))).map
        (fun p => (alookup db p.1).getD p.2)
    refine List.mem_map.mpr ⟨(k, w), List.mem_filter.mpr ⟨hmem, ?_⟩, ?_⟩
    · simp [mem_akeys_of_alookup h2, h2]
    · simp [h2]
  · intro k w d2 h1 h2 hne
    have hmem : (k, w) ∈ web := alookup_mem h1
    show w ∈ (web.filter (fun p =>
      decide (p.1 ∈ akeys db) && !decide (alookup db p.1 = some p.2))).map Prod.snd
    refine List.mem_map.mpr ⟨(k, w), List.mem_filter.mpr ⟨hmem, ?_⟩, rfl⟩
    have hnl : alookup db k ≠ some w := by
      rw [h2]
      intro hcon
      injection hcon with hcon2
      exact hne hcon2.symm
    simp [mem_akeys_of_alookup h2, hnl]
  · intro k
    rw [mem_unionKeys]
    unfold specKeyStatus
    cases hw1 : alookup web k with
    | some r1 =>
      cases hd1 : alookup db k with
      | some r2 =>
        constructor
        · intro _
          show (if r1 = r2 then some DbRecordStatus.UNMODIFIED
            else some DbRecordStatus.UPDATED).isSome = true
          split <;> rfl
        · intro _
          exact Or.inl (mem_akeys_of_alookup hw1)
      | none =>
        constructor
        · intro _
          rfl
        · intro _
          exact Or.inl (mem_akeys_of_alookup hw1)
    | none =>
      cases hd1 : alookup db k with
      | some r2 =>
        constructor
        · intro _
          rfl
        · intro _
          exact Or.inr (mem_akeys_of_alookup hd1)
      | none =>
        constructor
        · rintro (h | h)
          · exact absurd h ((alookup_eq_none_iff web k).mp hw1)
          · exact absurd h ((alookup_eq_none_iff db k).mp hd1)
        · intro hs
          exact absurd hs (by simp)
  · have hnew : bucketLen (classifyRecords web db).new =
        (web.filter (fun p => decide (p.1 ∉ akeys db))).length := by
      simp [bucketLen, classifyRecords]
    have hupd : bucketLen (classifyRecords web db).updated =
        (web.filter (fun p =>
          decide (p.1 ∈ akeys db) && !decide (alookup db p.1 = some p.2))).length := by
      simp [bucketLen, classifyRecords]
    have hunm : bucketLen (classifyRecords web db).unmodified =
        (web.filter (fun p =>
          decide (p.1 ∈ akeys db) && decide (alookup db p.1 = some p.2))).length := by
      simp [bucketLen, classifyRecords]
    have hdel : bucketLen (classifyRecords web db).deleted =
        (db.filter (fun q => decide (q.1 ∉ akeys web))).length := by
      simp [bucketLen, classifyRecords]
    have hpart := length_filter_three web
      (fun p => decide (p.1 ∉ akeys db))
      (fun p => decide (p.1 ∈ akeys db) && !decide (alookup db p.1 = some p.2))
      (fun p => decide (p.1 ∈ akeys db) && decide (alookup db p.1 = some p.2))
      (by
        intro p _
        by_cases hg : p.1 ∈ akeys db <;> by_cases hq : alookup db p.1 = some p.2 <;>
          simp [hg, hq])
    have hdellen : (db.filter (fun q => decide (q.1 ∉ akeys web))).length =
        ((akeys db).filter (fun k2 => decide (k2 ∉ akeys web))).length := by
      have hmf := filter_key_map_fst db (fun k2 => decide (k2 ∉ akeys web))
      have hlen := congrArg List.length hmf
      rw [List.length_map] at hlen
      exact hlen
    have hunion : (unionKeys web db).length =
        web.length + ((akeys db).filter (fun k2 => decide (k2 ∉ akeys web))).length := by
      unfold unionKeys
      rw [List.length_append]
      congr 1
      simp [akeys]
    rw [hnew, hupd, hunm, hdel, hdellen, hunion]
    omega

theorem claim_c1_partition_witness :
    match_ieee_cs_cfp_information_with_db web1 (some [headerRow, serializeRecord rc1]) =
      some (classifyRecords web1 dbw1) :=
  (claim_c1_partition web1 dbw1 headerRow [serializeRecord rc1] (by decide) (by decide)).1
